import Mathlib

/-!
Verification of the `pinecone-context` repository's core pipeline:
text chunking (`src/embeddings.js`), content-addressed identifiers and
store/search pipelines (`src/context.js`), and the MCP server's caches and
`indexText` (`mcp server file`).  JavaScript strings are modelled as
`List Char`, JS numbers used as indices as `Int` (they may go negative in
the chunker), and machine-level structures (JS `Map`, plain objects) as
insertion-ordered association lists.
-/

namespace PineconeContext

set_option maxRecDepth 40000
set_option maxHeartbeats 1000000

/-! ## JS string primitives -/

/-- Whitespace characters recognised by JavaScript `String.prototype.trim`
(restricted to the ASCII whitespace actually occurring in text). -/
def isWS (c : Char) : Bool :=
  c = ' ' || c = '\t' || c = '\n' || c = '\r' || c = '\x0b' || c = '\x0c'

/-- JavaScript `s.trim()`: strip whitespace from both ends. -/
def jsTrim (s : List Char) : List Char :=
  ((s.dropWhile isWS).reverse.dropWhile isWS).reverse

/-- JavaScript `s.slice(start, stop)` with clamping of negative and
out-of-range indices. -/
def jsSlice (s : List Char) (start stop : Int) : List Char :=
  let len : Int := s.length
  let lo : Int := if start < 0 then max (len + start) 0 else min start len
  let hi : Int := if stop < 0 then max (len + stop) 0 else min stop len
  (s.take hi.toNat).drop lo.toNat

/-- `pat` occurs in `s` starting at index `i`. -/
def occursAt (s pat : List Char) (i : Nat) : Bool :=
  pat.isPrefixOf (s.drop i)

/-- JavaScript `s.lastIndexOf(pat, pos)`: the largest index `i ≤ pos` at
which `pat` occurs (the occurrence may extend beyond `pos`), `-1` if there
is none; `pos` is clamped into `[0, s.length]`. -/
def jsLastIndexOf (s pat : List Char) (pos : Int) : Int :=
  let posN : Nat := min pos.toNat s.length
  match ((List.range (posN + 1)).filter (occursAt s pat)).getLast? with
  | some i => (i : Int)
  | none => -1

/-! ## Chunker (`chunkText`, src/embeddings.js)

The `while (start < text.length)` loop of the source can fail to
terminate (see the claim about overlap), so the loop is modelled with
explicit fuel; `chunkText` supplies enough fuel for every terminating run
in which the offset advances by at least one per iteration. -/

/-- The break-point preference list `['\n\n', '\n', '. ', '! ', '? ']`. -/
def breakPoints : List (List Char) :=
  [['\n', '\n'], ['\n'], ['.', ' '], ['!', ' '], ['?', ' ']]

/-- One iteration's final `end` offset: propose `start + maxChunkSize`; if
that is before the text's end, take the first break point whose last
occurrence at or before the proposed end lies strictly after
`start + maxChunkSize / 2` (real division: `2 * lastBreak > 2 * start +
maxChunkSize`). -/
def chunkIterEnd (text : List Char) (maxChunkSize : Nat) (start : Int) : Int :=
  let e : Int := start + maxChunkSize
  if e < (text.length : Int) then
    match breakPoints.findSome? (fun bp =>
        let lastBreak := jsLastIndexOf text bp e
        if 2 * lastBreak > 2 * start + (maxChunkSize : Int) then
          some (lastBreak + (bp.length : Int))
        else none) with
    | some e2 => e2
    | none => e
  else e

/-- The `start` offset after one loop iteration: `end - overlap`. -/
def chunkNextStart (text : List Char) (maxChunkSize overlap : Nat) (start : Int) : Int :=
  chunkIterEnd text maxChunkSize start - (overlap : Int)

/-- The chunking loop with explicit fuel: while `start < text.length`,
push `text.slice(start, end).trim()` and advance `start` to
`end - overlap`. -/
def chunkTextFuel (text : List Char) (maxChunkSize overlap : Nat) :
    Nat → Int → List (List Char)
  | 0, _ => []
  | fuel + 1, start =>
    if start < (text.length : Int) then
      let e := chunkIterEnd text maxChunkSize start
      jsTrim (jsSlice text start e) ::
        chunkTextFuel text maxChunkSize overlap fuel (e - (overlap : Int))
    else []

/-- `chunkText(text, maxChunkSize = 1000, overlap = 100)`: run the loop
from offset 0 and drop empty chunks. -/
def chunkText (text : List Char) (maxChunkSize : Nat := 1000) (overlap : Nat := 100) :
    List (List Char) :=
  (chunkTextFuel text maxChunkSize overlap (text.length + 1) 0).filter
    (fun c => 0 < c.length)

/-! ### Chunker lemmas -/

theorem jsSlice_zero_ge_length (s : List Char) (e : Int) (h : (s.length : Int) ≤ e) :
    jsSlice s 0 e = s := by
  have h1 : ¬ (e < (0 : Int)) := by omega
  have h2 : e ⊓ (s.length : Int) = (s.length : Int) := by omega
  have h3 : (0 : Int) ⊓ (s.length : Int) = 0 := by omega
  simp [jsSlice, h1, h2, h3]

theorem chunkIterEnd_of_ge (text : List Char) (ms : Nat) (start : Int)
    (h : (text.length : Int) ≤ start + ms) :
    chunkIterEnd text ms start = start + ms := by
  unfold chunkIterEnd
  rw [if_neg (by omega)]

theorem chunkTextFuel_succ_of_lt (text : List Char) (ms ov fuel : Nat) (start : Int)
    (h : start < (text.length : Int)) :
    chunkTextFuel text ms ov (fuel + 1) start =
      jsTrim (jsSlice text start (chunkIterEnd text ms start)) ::
        chunkTextFuel text ms ov fuel (chunkIterEnd text ms start - (ov : Int)) := by
  simp only [chunkTextFuel, if_pos h]

theorem chunkTextFuel_succ_of_ge (text : List Char) (ms ov fuel : Nat) (start : Int)
    (h : (text.length : Int) ≤ start) :
    chunkTextFuel text ms ov (fuel + 1) start = [] := by
  simp only [chunkTextFuel, if_neg (by omega : ¬ start < (text.length : Int))]

/-- The claim `C1` as stated is false: a text of length `≤ maxChunkSize`
but longer than `maxChunkSize - overlap` produces a second tail chunk.
`chunkText "ab" 2 1 = ["ab", "b"]`, not `["ab"]`. -/
theorem chunkText_two_chunks_on_short_text :
    (['a', 'b'] : List Char).length ≤ 2 ∧
    chunkText ['a', 'b'] 2 1 = [['a', 'b'], ['b']] ∧
    chunkText ['a', 'b'] 2 1 ≠ [jsTrim ['a', 'b']] := by decide

/-- Amended `C1`: when the whole text fits in the first chunk with room
for the overlap step to exit the loop (`text.length + overlap ≤
maxChunkSize`), `chunkText` returns exactly the trimmed text, or `[]`
when the text is blank. -/
theorem chunkText_short_text (text : List Char) (maxChunkSize overlap : Nat)
    (h : text.length + overlap ≤ maxChunkSize) :
    chunkText text maxChunkSize overlap =
      if jsTrim text = [] then [] else [jsTrim text] := by
  rcases hn : text.length with _ | n
  · have htext : text = [] := List.length_eq_zero.mp hn
    subst htext
    simp [chunkText, chunkTextFuel, jsTrim]
  · have h0 : (0 : Int) < (text.length : Int) := by omega
    unfold chunkText
    rw [hn]
    rw [chunkTextFuel_succ_of_lt text maxChunkSize overlap (n + 1) 0 h0]
    rw [chunkIterEnd_of_ge text maxChunkSize 0 (by omega)]
    rw [chunkTextFuel_succ_of_ge text maxChunkSize overlap n
      (0 + (maxChunkSize : Int) - (overlap : Int)) (by omega)]
    rw [jsSlice_zero_ge_length text (0 + (maxChunkSize : Int)) (by omega)]
    cases hjt : jsTrim text <;> simp [hjt]

/-- Witness for `chunkText_short_text` at `text = "hi"`,
`maxChunkSize = 4`, `overlap = 1`. -/
theorem chunkText_short_text_witness :
    chunkText ['h', 'i'] 4 1 = [['h', 'i']] := by
  rw [chunkText_short_text ['h', 'i'] 4 1 (by decide)]
  decide

/-- A text on which the chunking loop gets stuck with `overlap = 8 <
maxChunkSize = 10`: the sentence break at index 6 sets `end = 8`, and
`start` moves from `0` back to `8 - 8 = 0`. -/
def nonAdvancingText : List Char := "aaaaaa. aaaaaaaaaa".toList

/-- The claim `C3` as stated is false: with `maxChunkSize = 10` and
`overlap = 8 < 10`, on `nonAdvancingText` the start offset does not
advance (the loop body maps `start = 0` to `start = 0`), so the loop does
not terminate. -/
theorem chunkNextStart_stuck :
    (0 : Nat) < 10 ∧ (8 : Nat) < 10 ∧ (0 : Int) < (nonAdvancingText.length : Int) ∧
    chunkNextStart nonAdvancingText 10 8 0 = 0 := by decide

/-- Amended `C3`: whenever `2 * overlap ≤ maxChunkSize` (and
`maxChunkSize > 0`), every loop iteration strictly advances the start
offset, so `chunkText` terminates.  (For `maxChunkSize / 2 < overlap <
maxChunkSize` advancement can fail, see `chunkNextStart_stuck`.) -/
theorem chunkNextStart_advances (text : List Char) (maxChunkSize overlap : Nat)
    (hms : 0 < maxChunkSize) (hov : 2 * overlap ≤ maxChunkSize) (start : Int) :
    start < chunkNextStart text maxChunkSize overlap start := by
  simp only [chunkNextStart, chunkIterEnd]
  split
  · rename_i hlt
    rcases hfind : breakPoints.findSome? (fun bp =>
        let lastBreak := jsLastIndexOf text bp (start + (maxChunkSize : Int))
        if 2 * lastBreak > 2 * start + (maxChunkSize : Int) then
          some (lastBreak + (bp.length : Int))
        else none) with _ | e2
    · show start < start + (maxChunkSize : Int) - (overlap : Int)
      omega
    · show start < e2 - (overlap : Int)
      obtain ⟨bp, hbp, hsome⟩ := List.exists_of_findSome?_eq_some hfind
      have hbplen : 1 ≤ bp.length := by
        simp only [breakPoints, List.mem_cons, List.not_mem_nil, or_false] at hbp
        rcases hbp with h | h | h | h | h <;> subst h <;> decide
      simp only at hsome
      split at hsome
      · rename_i hguard
        have he2 : jsLastIndexOf text bp (start + (maxChunkSize : Int)) + (bp.length : Int) = e2 :=
          (Option.some.injEq _ _).mp hsome
      -- 2*e2 ≥ 2*lastBreak + 2 > 2*start + maxChunkSize + 2 ≥ 2*start + 2*overlap + 2
        omega
      · exact absurd hsome (by simp)
  · omega

/-- Witness for `chunkNextStart_advances` at `text = "x"`,
`maxChunkSize = 2`, `overlap = 1`, `start = 0`. -/
theorem chunkNextStart_advances_witness :
    (0 : Int) < chunkNextStart ['x'] 2 1 0 :=
  chunkNextStart_advances ['x'] 2 1 (by decide) (by decide) 0

/-! ## The MCP server's caches (`getCached` / `setCache`)

A JavaScript `Map` is modelled as an insertion-ordered association list:
`get`/`set`/`delete` preserve insertion order, `set` of a fresh key
appends, `set` of a present key updates in place, and
`cache.keys().next().value` is the first key. -/

/-- A cache entry `{ value, expiresAt }`. -/
structure CacheEntry (V : Type) where
  value : V
  expiresAt : Int
deriving DecidableEq, Repr

/-- JavaScript `Map.prototype.get`. -/
def mapGet {K V : Type} [DecidableEq K] (m : List (K × V)) (k : K) : Option V :=
  (m.find? (fun p => decide (p.1 = k))).map (fun p => p.2)

/-- JavaScript `Map.prototype.set`: update in place if the key is
present, else append. -/
def mapSet {K V : Type} [DecidableEq K] (m : List (K × V)) (k : K) (v : V) : List (K × V) :=
  if (m.find? (fun p => decide (p.1 = k))).isSome then
    m.map (fun p => if p.1 = k then (k, v) else p)
  else m ++ [(k, v)]

/-- JavaScript `Map.prototype.delete`. -/
def mapDelete {K V : Type} [DecidableEq K] (m : List (K × V)) (k : K) : List (K × V) :=
  m.filter (fun p => decide (p.1 ≠ k))

/-- JavaScript `Map.prototype.size`. -/
def mapSize {K V : Type} (m : List (K × V)) : Nat := m.length

/-- JavaScript `cache.keys().next().value`: the earliest-inserted key. -/
def firstKey {K V : Type} (m : List (K × V)) : Option K := m.head?.map (fun p => p.1)

/-- `CACHE_TTL = 300000` (5 minutes in milliseconds). -/
def CACHE_TTL : Nat := 300000

/-- `getCached(cache, key)` at time `now`: a miss returns `null` and
leaves the cache unchanged; a hit on an expired entry deletes it and
returns `null`; a live hit returns the value unchanged.  The returned
pair is (result, cache after the call). -/
def getCached {K V : Type} [DecidableEq K] (cache : List (K × CacheEntry V)) (now : Int)
    (key : K) : Option V × List (K × CacheEntry V) :=
  match mapGet cache key with
  | none => (none, cache)
  | some item =>
    if now > item.expiresAt then (none, mapDelete cache key)
    else (some item.value, cache)

/-- `setCache(cache, key, value)` at time `now`: if `cache.size > 100`,
delete the earliest-inserted key, then set
`{ value, expiresAt: now + CACHE_TTL }`. -/
def setCache {K V : Type} [DecidableEq K] (cache : List (K × CacheEntry V)) (now : Int)
    (key : K) (v : V) : List (K × CacheEntry V) :=
  let cache1 :=
    if 100 < mapSize cache then
      match firstKey cache with
      | some fk => mapDelete cache fk
      | none => cache
    else cache
  mapSet cache1 key ⟨v, now + (CACHE_TTL : Int)⟩

/-! ### Cache lemmas -/

theorem find?_map_update {K V : Type} [DecidableEq K] (m : List (K × V)) (k : K) (v : V) :
    (m.map (fun p => if p.1 = k then (k, v) else p)).find? (fun p => decide (p.1 = k)) =
      (m.find? (fun p => decide (p.1 = k))).map (fun _ => (k, v)) := by
  induction m with
  | nil => rfl
  | cons p t ih =>
    by_cases hp : p.1 = k
    · simp [hp]
    · simp only [List.map_cons, if_neg hp]
      rw [List.find?_cons_of_neg _ (by simp [hp]), List.find?_cons_of_neg _ (by simp [hp])]
      exact ih

theorem mapGet_mapSet_self {K V : Type} [DecidableEq K] (m : List (K × V)) (k : K) (v : V) :
    mapGet (mapSet m k v) k = some v := by
  unfold mapGet mapSet
  split
  · rw [find?_map_update]
    rename_i hsome
    rcases Option.isSome_iff_exists.mp hsome with ⟨p, hp⟩
    rw [hp]
    rfl
  · rw [List.find?_append]
    rename_i hnone
    rw [Option.not_isSome_iff_eq_none.mp hnone]
    simp

theorem mapGet_eq_none_iff {K V : Type} [DecidableEq K] (m : List (K × V)) (k : K) :
    mapGet m k = none ↔ ∀ p ∈ m, p.1 ≠ k := by
  unfold mapGet
  rw [Option.map_eq_none']
  rw [List.find?_eq_none]
  simp

/-- The claim `C2` as stated is false: eviction only triggers when
`cache.size > 100`, so inserting the 101st distinct key into a fresh
cache evicts nothing and 101 entries remain (not 100). -/
theorem setCache_101st_key_no_eviction :
    mapSize ((List.range 101).foldl (fun c k => setCache c 0 k 0) ([] : List (Nat × CacheEntry Nat))) = 101 := by
  decide

/-- Amended `C2`: the cache never holds more than 101 entries; once it
holds more than 100 entries (i.e. 101 of them), inserting a fresh key
evicts exactly the earliest-inserted entry, so the size is preserved
(101 entries remain after the 102nd distinct insertion). -/
theorem setCache_evicts_oldest {K V : Type} [DecidableEq K]
    (cache : List (K × CacheEntry V)) (now : Int) (k : K) (v : V)
    (h1 : 100 < mapSize cache) (h2 : mapGet cache k = none)
    (h3 : (cache.map Prod.fst).Nodup) :
    setCache cache now k v = cache.tail ++ [(k, ⟨v, now + (CACHE_TTL : Int)⟩)] ∧
    mapSize (setCache cache now k v) = mapSize cache := by
  match cache, h1 with
  | p :: t, h1 =>
    have hfresh : ∀ q ∈ p :: t, q.1 ≠ k := (mapGet_eq_none_iff _ _).mp h2
    have hhead : ∀ q ∈ t, q.1 ≠ p.1 := by
      intro q hq
      simp only [List.map_cons, List.nodup_cons] at h3
      intro hcontra
      exact h3.1 (hcontra ▸ List.mem_map_of_mem Prod.fst hq)
    have hdel : mapDelete (p :: t) p.1 = t := by
      unfold mapDelete
      rw [List.filter_cons_of_neg (by simp)]
      rw [List.filter_eq_self.mpr (fun q hq => by simpa using hhead q hq)]
    have hset : mapSet t k (⟨v, now + (CACHE_TTL : Int)⟩ : CacheEntry V) =
        t ++ [(k, ⟨v, now + (CACHE_TTL : Int)⟩)] := by
      unfold mapSet
      rw [if_neg]
      rw [Option.isSome_iff_exists]
      push_neg
      intro q hq
      have := List.find?_some hq
      have hqmem := List.mem_of_find?_eq_some hq
      simp only [decide_eq_true_eq] at this
      exact absurd this (hfresh q (List.mem_cons_of_mem p hqmem))
    constructor
    · show mapSet (if 100 < mapSize (p :: t) then _ else _) k _ = _
      rw [if_pos h1]
      show mapSet (mapDelete (p :: t) p.1) k _ = _
      rw [hdel, hset]
      rfl
    · show mapSize (mapSet (if 100 < mapSize (p :: t) then _ else _) k _) = _
      rw [if_pos h1]
      show mapSize (mapSet (mapDelete (p :: t) p.1) k _) = _
      rw [hdel, hset]
      simp [mapSize]

/-- Witness for `setCache_evicts_oldest`: after inserting keys
`0, …, 101` into a fresh cache the size is still 101 and key `0` is gone. -/
theorem setCache_evicts_oldest_witness :
    mapSize (setCache ((List.range 101).map
        (fun k => (k, (⟨0, (CACHE_TTL : Int)⟩ : CacheEntry Nat)))) 0 101 0) =
      mapSize ((List.range 101).map
        (fun k => (k, (⟨0, (CACHE_TTL : Int)⟩ : CacheEntry Nat)))) :=
  (setCache_evicts_oldest _ 0 101 0 (by decide)
    (by rw [mapGet_eq_none_iff]; decide) (by decide)).2

/-- `C6`: an entry inserted at time `T` with TTL `CACHE_TTL` is returned
unchanged (value and cache state) by any lookup at `T + ε` with
`0 ≤ ε < CACHE_TTL`, and any lookup at `T + CACHE_TTL + ε` with `ε > 0`
deletes the entry and reports a miss. -/
theorem getCached_ttl {K V : Type} [DecidableEq K] (cache : List (K × CacheEntry V))
    (k : K) (v : V) (T eps : Int) :
    (0 ≤ eps → eps < (CACHE_TTL : Int) →
      getCached (setCache cache T k v) (T + eps) k = (some v, setCache cache T k v)) ∧
    (0 < eps →
      getCached (setCache cache T k v) (T + (CACHE_TTL : Int) + eps) k
        = (none, mapDelete (setCache cache T k v) k)) := by
  have hg : mapGet (setCache cache T k v) k = some ⟨v, T + (CACHE_TTL : Int)⟩ := by
    simp only [setCache]
    exact mapGet_mapSet_self _ _ _
  constructor
  · intro h1 h2
    simp only [getCached, hg]
    rw [if_neg (by omega)]
  · intro h1
    simp only [getCached, hg]
    rw [if_pos (by omega)]

/-- Witness for `getCached_ttl` on a fresh cache with `T = 0`, `ε = 1`. -/
theorem getCached_ttl_witness :
    getCached (setCache ([] : List (Nat × CacheEntry Nat)) 0 0 5) (0 + 1) 0
        = (some 5, setCache ([] : List (Nat × CacheEntry Nat)) 0 0 5) ∧
    getCached (setCache ([] : List (Nat × CacheEntry Nat)) 0 0 5)
        (0 + (CACHE_TTL : Int) + 1) 0
        = (none, mapDelete (setCache ([] : List (Nat × CacheEntry Nat)) 0 0 5) 0) :=
  ⟨(getCached_ttl [] 0 5 0 1).1 (by decide) (by decide),
   (getCached_ttl [] 0 5 0 1).2 (by decide)⟩

/-! ## Store pipeline batching (`storeContext`, src/context.js)

`for (let i = 0; i < vectors.length; i += batchSize) { const batch =
vectors.slice(i, i + batchSize); await index.upsert(batch); }` with
`batchSize = 100`.  `upsertBatches vectors` is the list of upserted
batches in call order. -/

/-- The batching loop of `storeContext`, started at offset `i`. -/
def upsertLoop {α : Type} (vectors : List α) (i : Nat) : List (List α) :=
  if i < vectors.length then
    ((vectors.drop i).take 100) :: upsertLoop vectors (i + 100)
  else []
termination_by vectors.length - i
decreasing_by omega

/-- The batches handed to `index.upsert`, in call order. -/
def upsertBatches {α : Type} (vectors : List α) : List (List α) :=
  upsertLoop vectors 0

theorem upsertLoop_spec {α : Type} (vectors : List α) (i : Nat) :
    (upsertLoop vectors i).flatten = vectors.drop i ∧
    (upsertLoop vectors i).length = (vectors.length - i + 99) / 100 ∧
    ∀ b ∈ upsertLoop vectors i, b.length ≤ 100 := by
  induction i using upsertLoop.induct vectors with
  | case1 i hi ih =>
    rw [upsertLoop, if_pos hi]
    refine ⟨?_, ?_, ?_⟩
    · rw [List.flatten_cons, ih.1, ← List.drop_drop]
      exact List.take_append_drop 100 (List.drop i vectors)
    · rw [List.length_cons, ih.2.1]
      omega
    · intro b hb
      rcases List.mem_cons.mp hb with h | h
      · subst h; exact (List.length_take _ _).trans_le (by omega)
      · exact ih.2.2 b h
  | case2 i hi =>
    rw [upsertLoop, if_neg hi]
    have hle : vectors.length ≤ i := by omega
    refine ⟨by rw [List.drop_eq_nil_of_le hle]; rfl, ?_, by simp⟩
    simp only [List.length_nil]
    omega

/-- `C4`: for any list of `n` assembled vectors, `storeContext` issues
exactly `⌈n / 100⌉` upsert calls, each of at most 100 vectors, whose
concatenation in call order is the original vector list. -/
theorem storeContext_batching {α : Type} (vectors : List α) :
    (upsertBatches vectors).length = (vectors.length + 99) / 100 ∧
    (∀ b ∈ upsertBatches vectors, b.length ≤ 100) ∧
    (upsertBatches vectors).flatten = vectors := by
  obtain ⟨h1, h2, h3⟩ := upsertLoop_spec vectors 0
  exact ⟨by simpa using h2, h3, by simpa using h1⟩

/-- Witness for `storeContext_batching`: 250 vectors are upserted as
exactly 3 batches of sizes 100, 100, 50, in order. -/
theorem storeContext_batching_witness :
    (upsertBatches (List.range 250)).length = 3 ∧
    (upsertBatches (List.range 250)).map List.length = [100, 100, 50] ∧
    (upsertBatches (List.range 250)).flatten = List.range 250 := by
  refine ⟨?_, ?_, (storeContext_batching (List.range 250)).2.2⟩
  · have h := (storeContext_batching (List.range 250)).1
    simp only [List.length_range] at h
    omega
  · rw [upsertBatches, upsertLoop, if_pos (by simp), upsertLoop, if_pos (by simp),
      upsertLoop, if_pos (by simp), upsertLoop, if_neg (by simp)]
    decide

/-! ## Decimal rendering of JS numbers (template literals) -/

/-- The decimal digit character for `d < 10`. -/
def digitChar (d : Nat) : Char := Char.ofNat (48 + d)

/-- Decimal rendering with explicit fuel (`fuel > n` suffices). -/
def natReprAux : Nat → Nat → List Char
  | 0, _ => []
  | fuel + 1, n =>
    if n < 10 then [digitChar n]
    else natReprAux fuel (n / 10) ++ [digitChar (n % 10)]

/-- `${n}` for a non-negative integer `n`: its decimal digits. -/
def natRepr (n : Nat) : List Char := natReprAux (n + 1) n

/-- Decimal decoding, inverse to `natRepr`. -/
def decodeDigits (l : List Char) : Nat :=
  l.foldl (fun acc c => acc * 10 + (c.toNat - 48)) 0

theorem digitChar_toNat (d : Nat) (h : d < 10) : (digitChar d).toNat = 48 + d := by
  interval_cases d <;> rfl

theorem decodeDigits_append_digit (l : List Char) (c : Char) :
    decodeDigits (l ++ [c]) = decodeDigits l * 10 + (c.toNat - 48) := by
  unfold decodeDigits
  rw [List.foldl_append]
  rfl

theorem decodeDigits_natReprAux (fuel n : Nat) (h : n < fuel) :
    decodeDigits (natReprAux fuel n) = n := by
  induction fuel generalizing n with
  | zero => omega
  | succ fuel ih =>
    rw [natReprAux]
    split
    · rename_i h10
      show decodeDigits [digitChar n] = n
      unfold decodeDigits
      simp [digitChar_toNat n h10]
    · rename_i h10
      rw [decodeDigits_append_digit, ih (n / 10) (by omega),
        digitChar_toNat (n % 10) (by omega)]
      omega

theorem natRepr_inj (m n : Nat) (h : natRepr m = natRepr n) : m = n := by
  have hm := decodeDigits_natReprAux (m + 1) m (by omega)
  have hn := decodeDigits_natReprAux (n + 1) n (by omega)
  rw [natRepr] at h
  rw [natRepr] at h
  rw [← hm, ← hn, h]

theorem underscore_not_mem_natReprAux (fuel n : Nat) : '_' ∉ natReprAux fuel n := by
  induction fuel generalizing n with
  | zero => simp [natReprAux]
  | succ fuel ih =>
    rw [natReprAux]
    split
    · rename_i h10
      intro hmem
      have : (digitChar n).toNat = 95 := by
        rw [← List.mem_singleton.mp hmem]
        rfl
      rw [digitChar_toNat n h10] at this
      omega
    · intro hmem
      rcases List.mem_append.mp hmem with h | h
      · exact ih (n / 10) h
      · have : (digitChar (n % 10)).toNat = 95 := by
          rw [← List.mem_singleton.mp h]
          rfl
        rw [digitChar_toNat (n % 10) (by omega)] at this
        omega

theorem underscore_not_mem_natRepr (n : Nat) : '_' ∉ natRepr n :=
  underscore_not_mem_natReprAux (n + 1) n

/-- Two lists, each free of the separator, followed by the separator and
a tail, are equal exactly componentwise. -/
theorem sep_split {a b r s : List Char} (ha : '_' ∉ a) (hb : '_' ∉ b)
    (h : a ++ '_' :: r = b ++ '_' :: s) : a = b ∧ r = s := by
  induction a generalizing b with
  | nil =>
    cases b with
    | nil => simpa using h
    | cons d b' =>
      exfalso
      simp only [List.nil_append, List.cons_append, List.cons.injEq] at h
      exact hb (h.1 ▸ List.mem_cons_self d b')
  | cons c a' ih =>
    cases b with
    | nil =>
      exfalso
      simp only [List.nil_append, List.cons_append, List.cons.injEq] at h
      exact ha (h.1 ▸ List.mem_cons_self c a')
    | cons d b' =>
      simp only [List.cons_append, List.cons.injEq] at h
      obtain ⟨h1, h2⟩ :=
        ih (fun hm => ha (List.mem_cons_of_mem c hm))
          (fun hm => hb (List.mem_cons_of_mem d hm)) h.2
      exact ⟨by rw [h.1, h1], h2⟩

/-! ## Metadata objects and JSON serialization

A JS metadata object is an insertion-ordered association list from
string keys to scalar values (the repository stores strings and
numbers).  `JSON.stringify` renders `{"k1":v1,...}` with keys in
insertion order; object spread `{...m, k: v}` replaces `k` in place when
present, else appends it. -/

/-- A scalar metadata value: a string or a non-negative integer.  `num`
models the integer-valued JS numbers the repository stores in metadata —
chunk indices, chunk counts — all far below `2 ^ 53`, the range in which
IEEE-754 doubles represent integers exactly and `JSON.stringify` renders
them as plain decimal digits.  Every theorem that serializes a `num`
either instantiates it with such a small concrete value or carries an
explicit `< 2 ^ 53` bound; no proof relies on exactness beyond that
range. -/
inductive MetaVal : Type where
  | str (s : List Char) : MetaVal
  | num (n : Nat) : MetaVal
deriving DecidableEq, Repr

/-- One lowercase hex digit. -/
def hexDigitChar (d : Nat) : Char :=
  if d < 10 then Char.ofNat (48 + d) else Char.ofNat (87 + d)

/-- JSON escaping of one character, as `JSON.stringify` emits it:
the two-character escapes for `"`, `\`, backspace, form feed, newline,
carriage return and tab, and `\u00XX` for the remaining control
characters. -/
def escapeChar (c : Char) : List Char :=
  if c = '"' then ['\\', '"']
  else if c = '\\' then ['\\', '\\']
  else if c = '\x08' then ['\\', 'b']
  else if c = '\x0c' then ['\\', 'f']
  else if c = '\n' then ['\\', 'n']
  else if c = '\r' then ['\\', 'r']
  else if c = '\t' then ['\\', 't']
  else if c.toNat < 32 then
    ['\\', 'u', '0', '0', hexDigitChar (c.toNat / 16), hexDigitChar (c.toNat % 16)]
  else [c]

/-- JSON escaping of a string body. -/
def escape (s : List Char) : List Char := s.flatMap escapeChar

/-- Serialization of one value. -/
def serVal : MetaVal → List Char
  | .str s => '"' :: escape s ++ ['"']
  | .num n => natRepr n

/-- Serialization of one `"key":value` entry. -/
def serEntry (e : String × MetaVal) : List Char :=
  '"' :: escape e.1.toList ++ ['"', ':'] ++ serVal e.2

/-- Comma-joined serialization of the entries. -/
def entsStr : List (String × MetaVal) → List Char
  | [] => []
  | [e] => serEntry e
  | e :: e2 :: rest => serEntry e ++ ',' :: entsStr (e2 :: rest)

/-- `JSON.stringify` of a metadata object. -/
def jsonStringify (m : List (String × MetaVal)) : List Char :=
  '{' :: entsStr m ++ ['}']

/-- Property read `m[k]` on a metadata object. -/
def objGet (m : List (String × MetaVal)) (k : String) : Option MetaVal :=
  (m.find? (fun p => decide (p.1 = k))).map (fun p => p.2)

/-- Object spread `{...m, k: v}`: replace in place or append. -/
def objSet : List (String × MetaVal) → String → MetaVal → List (String × MetaVal)
  | [], k, v => [(k, v)]
  | p :: rest, k, v => if p.1 = k then (k, v) :: rest else p :: objSet rest k v

/-- `{...m, k1: v1, k2: v2, ...}` for a list of literal entries. -/
def objSets (m : List (String × MetaVal)) (kvs : List (String × MetaVal)) :
    List (String × MetaVal) :=
  kvs.foldl (fun acc kv => objSet acc kv.1 kv.2) m

/-! ## The MCP server's `indexText` (`pinecone_remember` store path)

`const id = ctx_${Date.now()}_${Math.random().toString(36).slice(2, 10)};`
The wall clock reading (`now`) and the random suffix (`rand`) are
explicit parameters of the model; `ts` is the `new Date().toISOString()`
reading. -/

/-- A vector record as handed to `index.upsert`, generic over the
embedding representation `E` (embeddings are produced by the external
provider and never inspected). -/
structure VectorRec (E : Type) : Type where
  id : List Char
  values : E
  metadata : List (String × MetaVal)
deriving DecidableEq, Repr

/-- The id generated by one `indexText` call. -/
def indexTextId (now : Nat) (rand : List Char) : List Char :=
  'c' :: 't' :: 'x' :: '_' :: natRepr now ++ '_' :: rand

/-- The record upserted by one `indexText(text, project, type, metadata)`
call, with metadata `{ text, project, type, timestamp, ...metadata }`. -/
def indexText {E : Type} (text project ptype : List Char)
    (metadata : List (String × MetaVal)) (embedding : E) (now : Nat)
    (rand ts : List Char) : VectorRec E :=
  { id := indexTextId now rand,
    values := embedding,
    metadata := objSets
      [("text", .str text), ("project", .str project), ("type", .str ptype),
       ("timestamp", .str ts)] metadata }

/-- The claim `C5` as stated is false: two `indexText` invocations with
identical `(text, project, type, metadata)` arguments, one millisecond
apart, produce different record ids, so re-submission of identical
content creates a new record instead of overwriting. -/
theorem indexText_fresh_id_counterexample :
    (indexText "hello".toList "proj".toList "note".toList [] (0 : Nat)
        1000 "abcd1234".toList "t".toList).id ≠
    (indexText "hello".toList "proj".toList "note".toList [] (0 : Nat)
        1001 "abcd1234".toList "t".toList).id := by decide

/-- Amended `C5`: the id of an `indexText` record does not depend on the
arguments at all — it is `ctx_<now>_<rand>` for the wall-clock reading
`now` and random suffix `rand`, and two such ids agree exactly when both
the timestamp and the random suffix agree.  Re-submission therefore
creates a new record whenever either differs, rather than overwriting. -/
theorem indexText_id_fresh {E : Type} (t1 p1 y1 t2 p2 y2 : List Char)
    (m1 m2 : List (String × MetaVal)) (e1 e2 : E) (ts1 ts2 : List Char)
    (now now1 now2 : Nat) (rand rand1 rand2 : List Char) :
    (indexText t1 p1 y1 m1 e1 now rand ts1).id =
      (indexText t2 p2 y2 m2 e2 now rand ts2).id ∧
    (indexTextId now1 rand1 = indexTextId now2 rand2 ↔
      (now1 = now2 ∧ rand1 = rand2)) := by
  constructor
  · rfl
  · constructor
    · intro h
      simp only [indexTextId] at h
      injection h with hc h
      injection h with hc h
      injection h with hc h
      injection h with hc h
      obtain ⟨h1, h2⟩ :=
        sep_split (underscore_not_mem_natRepr now1) (underscore_not_mem_natRepr now2) h
      exact ⟨natRepr_inj now1 now2 h1, h2⟩
    · rintro ⟨rfl, rfl⟩
      rfl

/-- Witness for `indexText_id_fresh`: ids with distinct timestamps are
distinct. -/
theorem indexText_id_fresh_witness :
    indexTextId 1 ['a'] ≠ indexTextId 2 ['a'] := fun h =>
  absurd ((indexText_id_fresh [] [] [] [] [] [] [] [] (0 : Nat) (0 : Nat) [] []
      0 1 2 [] ['a'] ['a']).2.mp h).1 (by decide)

/-! ## MD5 (`crypto.createHash('md5')`)

A complete executable MD5 over byte lists (`Nat < 256`), with 32-bit
words as `Nat` reduced modulo `2^32`.  `generateId` in `src/context.js`
hashes the UTF-8 bytes of `text + JSON.stringify(metadata)` and keeps the
first 16 hex characters. -/

/-- `2^32`. -/
def m32 : Nat := 4294967296

/-- 32-bit addition. -/
def add32 (a b : Nat) : Nat := (a + b) % m32

/-- 32-bit complement. -/
def not32 (a : Nat) : Nat := 4294967295 - a

/-- 32-bit left rotation (for `0 < s < 32` and `x < 2^32`). -/
def rotl32 (x s : Nat) : Nat := ((x * 2 ^ s) % m32) + (x / 2 ^ (32 - s))

/-- The 64 MD5 sine-derived round constants. -/
def md5K : List Nat :=
  [0xd76aa478, 0xe8c7b756, 0x242070db, 0xc1bdceee,
   0xf57c0faf, 0x4787c62a, 0xa8304613, 0xfd469501,
   0x698098d8, 0x8b44f7af, 0xffff5bb1, 0x895cd7be,
   0x6b901122, 0xfd987193, 0xa679438e, 0x49b40821,
   0xf61e2562, 0xc040b340, 0x265e5a51, 0xe9b6c7aa,
   0xd62f105d, 0x02441453, 0xd8a1e681, 0xe7d3fbc8,
   0x21e1cde6, 0xc33707d6, 0xf4d50d87, 0x455a14ed,
   0xa9e3e905, 0xfcefa3f8, 0x676f02d9, 0x8d2a4c8a,
   0xfffa3942, 0x8771f681, 0x6d9d6122, 0xfde5380c,
   0xa4beea44, 0x4bdecfa9, 0xf6bb4b60, 0xbebfbc70,
   0x289b7ec6, 0xeaa127fa, 0xd4ef3085, 0x04881d05,
   0xd9d4d039, 0xe6db99e5, 0x1fa27cf8, 0xc4ac5665,
   0xf4292244, 0x432aff97, 0xab9423a7, 0xfc93a039,
   0x655b59c3, 0x8f0ccc92, 0xffeff47d, 0x85845dd1,
   0x6fa87e4f, 0xfe2ce6e0, 0xa3014314, 0x4e0811a1,
   0xf7537e82, 0xbd3af235, 0x2ad7d2bb, 0xeb86d391]

/-- The 64 MD5 per-round shift amounts. -/
def md5S : List Nat :=
  [7, 12, 17, 22, 7, 12, 17, 22, 7, 12, 17, 22, 7, 12, 17, 22,
   5, 9, 14, 20, 5, 9, 14, 20, 5, 9, 14, 20, 5, 9, 14, 20,
   4, 11, 16, 23, 4, 11, 16, 23, 4, 11, 16, 23, 4, 11, 16, 23,
   6, 10, 15, 21, 6, 10, 15, 21, 6, 10, 15, 21, 6, 10, 15, 21]

/-- Four bytes to one little-endian 32-bit word. -/
def bytesToWordLE (b0 b1 b2 b3 : Nat) : Nat := b0 + 256 * (b1 + 256 * (b2 + 256 * b3))

/-- A 64-byte chunk to its 16 little-endian message words. -/
def toWordsLE : List Nat → List Nat
  | b0 :: b1 :: b2 :: b3 :: rest => bytesToWordLE b0 b1 b2 b3 :: toWordsLE rest
  | _ => []

/-- One MD5 round on the state `(A, B, C, D)`. -/
def md5Round (M : List Nat) (i : Nat) (st : Nat × Nat × Nat × Nat) :
    Nat × Nat × Nat × Nat :=
  let (a, b, c, d) := st
  let f :=
    if i < 16 then (b.land c).lor ((not32 b).land d)
    else if i < 32 then (d.land b).lor ((not32 d).land c)
    else if i < 48 then (b.xor c).xor d
    else c.xor (b.lor (not32 d))
  let g :=
    if i < 16 then i
    else if i < 32 then (5 * i + 1) % 16
    else if i < 48 then (3 * i + 5) % 16
    else (7 * i) % 16
  let tmp := (f + a + md5K.getD i 0 + M.getD g 0) % m32
  (d, add32 b (rotl32 tmp (md5S.getD i 0)), b, c)

/-- Process one padded 64-byte chunk. -/
def md5Chunk (st : Nat × Nat × Nat × Nat) (chunk : List Nat) :
    Nat × Nat × Nat × Nat :=
  let M := toWordsLE chunk
  let r := (List.range 64).foldl (fun s i => md5Round M i s) st
  (add32 st.1 r.1, add32 st.2.1 r.2.1, add32 st.2.2.1 r.2.2.1, add32 st.2.2.2 r.2.2.2)

/-- Split (a padded message) into 64-byte chunks; the fuel
`bytes.length` is enough since every step consumes at least one byte. -/
def toChunksAux : Nat → List Nat → List (List Nat)
  | 0, _ => []
  | _, [] => []
  | fuel + 1, b :: rest => (b :: rest).take 64 :: toChunksAux fuel ((b :: rest).drop 64)

/-- Split a byte list into 64-byte chunks. -/
def toChunks (bytes : List Nat) : List (List Nat) := toChunksAux bytes.length bytes

/-- The low `count` bytes of `n`, little-endian. -/
def wordBytesLE (n : Nat) : Nat → List Nat
  | 0 => []
  | c + 1 => n % 256 :: wordBytesLE (n / 256) c

/-- MD5 padding: `0x80`, zeros to 56 mod 64, then the bit length as 8
little-endian bytes. -/
def md5Pad (msg : List Nat) : List Nat :=
  msg ++ 0x80 :: List.replicate ((119 - msg.length % 64) % 64) 0 ++
    wordBytesLE (8 * msg.length) 8

/-- The 16-byte MD5 digest of a byte list. -/
def md5Bytes (msg : List Nat) : List Nat :=
  let st := (toChunks (md5Pad msg)).foldl md5Chunk
    (0x67452301, 0xefcdab89, 0x98badcfe, 0x10325476)
  wordBytesLE st.1 4 ++ wordBytesLE st.2.1 4 ++
    wordBytesLE st.2.2.1 4 ++ wordBytesLE st.2.2.2 4

/-- A byte as two lowercase hex characters. -/
def byteHex (b : Nat) : List Char := [hexDigitChar (b / 16), hexDigitChar (b % 16)]

/-- `digest('hex')`: the 32-character lowercase hex digest. -/
def md5Hex (msg : List Nat) : List Char := (md5Bytes msg).flatMap byteHex

/-- UTF-8 encoding of one character. -/
def utf8Bytes (c : Char) : List Nat :=
  let n := c.toNat
  if n < 128 then [n]
  else if n < 2048 then [192 + n / 64, 128 + n % 64]
  else if n < 65536 then [224 + n / 4096, 128 + (n / 64) % 64, 128 + n % 64]
  else [240 + n / 262144, 128 + (n / 4096) % 64, 128 + (n / 64) % 64, 128 + n % 64]

/-- UTF-8 bytes of a string (what `hash.update(string)` consumes). -/
def strBytes (s : List Char) : List Nat := s.flatMap utf8Bytes

/-- Validation against the RFC 1321 test vector for the empty string. -/
theorem md5_empty_string :
    md5Hex (strBytes []) = "d41d8cd98f00b204e9800998ecf8427e".toList := by decide

/-- Validation against the RFC 1321 test vector for `"abc"`. -/
theorem md5_abc :
    md5Hex (strBytes "abc".toList) = "900150983cd24fb0d6963f7d28e17f72".toList := by
  decide

/-! ## The identifier generator (`generateId`, src/context.js) -/

/-- `generateId(text, metadata)`: `ctx_` followed by the first 16 hex
characters of the MD5 digest of `text + JSON.stringify(metadata)`. -/
def generateId (text : List Char) (metadata : List (String × MetaVal)) : List Char :=
  'c' :: 't' :: 'x' :: '_' :: (md5Hex (strBytes (text ++ jsonStringify metadata))).take 16

theorem objGet_objSet_self (m : List (String × MetaVal)) (k : String) (v : MetaVal) :
    objGet (objSet m k v) k = some v := by
  induction m with
  | nil =>
    show objGet [(k, v)] k = some v
    unfold objGet
    rw [List.find?_cons_of_pos _ (by simp)]
    rfl
  | cons p rest ih =>
    rw [objSet]
    split
    · unfold objGet
      rw [List.find?_cons_of_pos _ (by simp)]
      rfl
    · rename_i hp
      unfold objGet
      rw [List.find?_cons_of_neg _ (by simpa using hp)]
      exact ih

theorem objGet_objSet_other (m : List (String × MetaVal)) (k k2 : String) (v : MetaVal)
    (hkk : k ≠ k2) : objGet (objSet m k v) k2 = objGet m k2 := by
  induction m with
  | nil =>
    show objGet [(k, v)] k2 = objGet [] k2
    unfold objGet
    rw [List.find?_cons_of_neg _ (by simpa using hkk)]
  | cons p rest ih =>
    rw [objSet]
    split
    · rename_i hp
      by_cases hpk : p.1 = k2
      · exact absurd (hp ▸ hpk) hkk
      · unfold objGet
        rw [List.find?_cons_of_neg _ (by simpa using hkk),
          List.find?_cons_of_neg _ (by simpa using hpk)]
    · rename_i hp
      by_cases hpk : p.1 = k2
      · unfold objGet
        rw [List.find?_cons_of_pos _ (by simpa using hpk),
          List.find?_cons_of_pos _ (by simpa using hpk)]
      · unfold objGet
        rw [List.find?_cons_of_neg _ (by simpa using hpk),
          List.find?_cons_of_neg _ (by simpa using hpk)]
        exact ih

/-! ## Store pipeline vector assembly (`storeContext`, src/context.js) -/

/-- The metadata object `{...metadata, text: chunk, chunkIndex: i,
totalChunks: n, timestamp: ts}` stamped on chunk `i`. -/
def chunkMeta (metadata : List (String × MetaVal)) (chunk : List Char) (i n : Nat)
    (ts : List Char) : List (String × MetaVal) :=
  objSets metadata
    [("text", .str chunk), ("chunkIndex", .num i), ("totalChunks", .num n),
     ("timestamp", .str ts)]

/-- The vectors assembled by one `storeContext(text, metadata)` call.
`embed chunk` is the embedding returned by the external provider for a
chunk; `clock i` is the ISO string produced by the `new Date()` call in
the `i`-th iteration of the assembling `map`. -/
def storeVectors {E : Type} (text : List Char) (metadata : List (String × MetaVal))
    (embed : List Char → E) (clock : Nat → List Char) : List (VectorRec E) :=
  let chunks := chunkText text
  chunks.enum.map (fun ic =>
    { id := generateId ic.2 (objSet metadata "chunkIndex" (.num ic.1)),
      values := embed ic.2,
      metadata := chunkMeta metadata ic.2 ic.1 chunks.length (clock ic.1) })

/-- `storeContext`: assemble the vectors, upsert them in batches of 100,
return the ids. -/
def storeContext {E : Type} (text : List Char) (metadata : List (String × MetaVal))
    (embed : List Char → E) (clock : Nat → List Char) :
    List (List (VectorRec E)) × List (List Char) :=
  let vectors := storeVectors text metadata embed clock
  (upsertBatches vectors, vectors.map (fun v => v.id))

theorem chunkMeta_objGet (metadata : List (String × MetaVal)) (chunk : List Char)
    (i n : Nat) (ts : List Char) :
    objGet (chunkMeta metadata chunk i n ts) "chunkIndex" = some (.num i) ∧
    objGet (chunkMeta metadata chunk i n ts) "totalChunks" = some (.num n) ∧
    objGet (chunkMeta metadata chunk i n ts) "timestamp" = some (.str ts) ∧
    objGet (chunkMeta metadata chunk i n ts) "text" = some (.str chunk) ∧
    ∀ k : String,
      k ∉ (["text", "chunkIndex", "totalChunks", "timestamp"] : List String) →
      objGet (chunkMeta metadata chunk i n ts) k = objGet metadata k := by
  simp only [chunkMeta, objSets, List.foldl_cons, List.foldl_nil]
  refine ⟨?_, ?_, ?_, ?_, ?_⟩
  · rw [objGet_objSet_other _ _ _ _ (by decide), objGet_objSet_other _ _ _ _ (by decide),
      objGet_objSet_self]
  · rw [objGet_objSet_other _ _ _ _ (by decide), objGet_objSet_self]
  · rw [objGet_objSet_self]
  · rw [objGet_objSet_other _ _ _ _ (by decide), objGet_objSet_other _ _ _ _ (by decide),
      objGet_objSet_other _ _ _ _ (by decide), objGet_objSet_self]
  · intro k hk
    simp only [List.mem_cons, List.not_mem_nil, or_false, not_or] at hk
    obtain ⟨h1, h2, h3, h4⟩ := hk
    rw [objGet_objSet_other _ _ _ _ (fun hc => h4 hc.symm),
      objGet_objSet_other _ _ _ _ (fun hc => h3 hc.symm),
      objGet_objSet_other _ _ _ _ (fun hc => h2 hc.symm),
      objGet_objSet_other _ _ _ _ (fun hc => h1 hc.symm)]

/-- A store of a 1000-character text produces two chunks (the full text
and the 100-character overlap tail), whose metadata differ in the `text`
and `timestamp` fields. -/
def c8Store : List (VectorRec Unit) :=
  storeVectors (List.replicate 1000 'a') [] (fun _ => ()) (fun i => natRepr i)

/-- The claim `C8` as stated is false: the two chunks of one
`storeContext` call carry different `text` values (each chunk's own
content) and, when the millisecond clock ticks between the two
`new Date()` calls, different `timestamp` values — not only `chunkIndex`
differs. -/
theorem storeVectors_fields_differ_beyond_chunkIndex :
    c8Store.map (fun v => objGet v.metadata "text") =
      [some (.str (List.replicate 1000 'a')), some (.str (List.replicate 100 'a'))] ∧
    c8Store.map (fun v => objGet v.metadata "timestamp") =
      [some (.str ['0']), some (.str ['1'])] ∧
    some (MetaVal.str (List.replicate 1000 'a')) ≠ some (MetaVal.str (List.replicate 100 'a')) ∧
    some (MetaVal.str ['0']) ≠ some (MetaVal.str ['1']) := by decide

/-- Amended `C8`: every assembled chunk satisfies
`chunkIndex < totalChunks`; chunks of one call agree on every metadata
field other than `chunkIndex`, `text` and `timestamp`; and their
timestamps also agree whenever the wall clock readings of one call
coincide. -/
theorem storeVectors_metadata_invariant {E : Type} (text : List Char)
    (metadata : List (String × MetaVal)) (embed : List Char → E)
    (clock : Nat → List Char) :
    (∀ v ∈ storeVectors text metadata embed clock,
      ∃ ci tc : Nat, objGet v.metadata "chunkIndex" = some (.num ci) ∧
        objGet v.metadata "totalChunks" = some (.num tc) ∧ ci < tc) ∧
    (∀ v ∈ storeVectors text metadata embed clock,
      ∀ w ∈ storeVectors text metadata embed clock,
      ∀ k : String, k ∉ (["text", "chunkIndex", "timestamp"] : List String) →
        objGet v.metadata k = objGet w.metadata k) ∧
    ((∀ i2 j2 : Nat, clock i2 = clock j2) →
      ∀ v ∈ storeVectors text metadata embed clock,
      ∀ w ∈ storeVectors text metadata embed clock,
        objGet v.metadata "timestamp" = objGet w.metadata "timestamp") := by
  have hmem : ∀ v ∈ storeVectors text metadata embed clock,
      ∃ i c, i < (chunkText text).length ∧
        v.metadata = chunkMeta metadata c i (chunkText text).length (clock i) := by
    intro v hv
    simp only [storeVectors, List.mem_map] at hv
    obtain ⟨⟨i, c⟩, hic, hveq⟩ := hv
    have hget := List.mk_mem_enum_iff_get?.mp hic
    have hlt := (List.get?_eq_some.mp hget).1
    exact ⟨i, c, hlt, by rw [← hveq]⟩
  refine ⟨?_, ?_, ?_⟩
  · intro v hv
    obtain ⟨i, c, hlt, hmeta⟩ := hmem v hv
    obtain ⟨hci, htc, _⟩ := chunkMeta_objGet metadata c i (chunkText text).length (clock i)
    exact ⟨i, (chunkText text).length, by rw [hmeta]; exact hci,
      by rw [hmeta]; exact htc, hlt⟩
  · intro v hv w hw k hk
    obtain ⟨i, c, _, hm1⟩ := hmem v hv
    obtain ⟨i2, c2, _, hm2⟩ := hmem w hw
    by_cases htot : k = "totalChunks"
    · subst htot
      rw [hm1, hm2, (chunkMeta_objGet _ _ _ _ _).2.1, (chunkMeta_objGet _ _ _ _ _).2.1]
    · have hk4 : k ∉ (["text", "chunkIndex", "totalChunks", "timestamp"] : List String) := by
        simp only [List.mem_cons, List.not_mem_nil, or_false, not_or] at hk ⊢
        exact ⟨hk.1, hk.2.1, htot, hk.2.2⟩
      rw [hm1, hm2, (chunkMeta_objGet _ _ _ _ _).2.2.2.2 k hk4,
        (chunkMeta_objGet _ _ _ _ _).2.2.2.2 k hk4]
  · intro hclock v hv w hw
    obtain ⟨i, c, _, hm1⟩ := hmem v hv
    obtain ⟨i2, c2, _, hm2⟩ := hmem w hw
    rw [hm1, hm2, (chunkMeta_objGet _ _ _ _ _).2.2.1, (chunkMeta_objGet _ _ _ _ _).2.2.1,
      hclock i i2]

/-- Witness for `storeVectors_metadata_invariant` on a two-chunk store:
the first chunk's metadata has `chunkIndex` 0 below `totalChunks` 2, and
the two chunks agree on the `project` field. -/
theorem storeVectors_metadata_invariant_witness :
    (∃ ci tc : Nat,
      objGet ((c8Store.getD 0 ⟨[], (), []⟩).metadata) "chunkIndex" = some (.num ci) ∧
      objGet ((c8Store.getD 0 ⟨[], (), []⟩).metadata) "totalChunks" = some (.num tc) ∧
      ci < tc) ∧
    objGet ((c8Store.getD 0 ⟨[], (), []⟩).metadata) "totalChunks" =
      objGet ((c8Store.getD 1 ⟨[], (), []⟩).metadata) "totalChunks" := by
  have h := storeVectors_metadata_invariant (List.replicate 1000 'a') []
    (fun _ => ()) (fun i => natRepr i)
  have hlen : c8Store.length = 2 := by decide
  have h0 : c8Store.getD 0 ⟨[], (), []⟩ ∈ c8Store := by
    rw [List.getD_eq_getElem?_getD]
    have : c8Store[0]? = some c8Store[0] := List.getElem?_eq_getElem (by omega)
    rw [this]
    exact List.getElem_mem _
  have h1 : c8Store.getD 1 ⟨[], (), []⟩ ∈ c8Store := by
    rw [List.getD_eq_getElem?_getD]
    have : c8Store[1]? = some c8Store[1] := List.getElem?_eq_getElem (by omega)
    rw [this]
    exact List.getElem_mem _
  exact ⟨h.1 _ h0, h.2.1 _ h0 _ h1 "totalChunks" (by decide)⟩

/-! ## Result grouping (`getRelevantContext`, src/context.js) -/

/-- A search result `{id, score, text, metadata}`; the similarity score
type `S` is abstract (scores come from the external index). -/
structure SearchResult (S : Type) : Type where
  id : List Char
  score : S
  text : Option MetaVal
  metadata : List (String × MetaVal)
deriving DecidableEq, Repr

/-- The four grouping buckets of `getRelevantContext`. -/
structure GroupedResults (S : Type) : Type where
  conversation : List (SearchResult S)
  code : List (SearchResult S)
  documentation : List (SearchResult S)
  other : List (SearchResult S)
deriving DecidableEq, Repr

/-- `result.metadata?.type || 'other'`: the label a result is grouped
under before the bucket lookup.  A missing type, an empty string, and
the falsy number 0 give `'other'`; a non-zero number renders as its
decimal digits (and lands in `other` at the bucket lookup, matching
`grouped[type]` being undefined for it). -/
def typeLabel (md : List (String × MetaVal)) : List Char :=
  match objGet md "type" with
  | some (.str s) => if s = [] then "other".toList else s
  | some (.num n) => if n = 0 then "other".toList else natRepr n
  | none => "other".toList

/-- The property names a bare `grouped[type]` lookup finds on
`Object.prototype` when `type` is none of the four own keys.  For every
one of these the inherited value (a function, or `Object.prototype`
itself for the `__proto__` accessor) is truthy but has no `push` method,
so `grouped[type].push(result)` throws a TypeError. -/
def protoProps : List (List Char) :=
  ["constructor".toList, "hasOwnProperty".toList, "isPrototypeOf".toList,
   "propertyIsEnumerable".toList, "toLocaleString".toList, "toString".toList,
   "valueOf".toList, "__defineGetter__".toList, "__defineSetter__".toList,
   "__lookupGetter__".toList, "__lookupSetter__".toList, "__proto__".toList]

/-- One iteration of the grouping loop, `if (grouped[type])
grouped[type].push(result); else grouped.other.push(result);`: push onto
the named own bucket when the label is one of the four own keys; throw
(`none`) when the label hits a truthy inherited `Object.prototype`
property; push onto `other` otherwise (`grouped[type]` undefined). -/
def groupStep {S : Type} (g : GroupedResults S) (r : SearchResult S) :
    Option (GroupedResults S) :=
  let t := typeLabel r.metadata
  if t = "conversation".toList then some { g with conversation := g.conversation ++ [r] }
  else if t = "code".toList then some { g with code := g.code ++ [r] }
  else if t = "documentation".toList then some { g with documentation := g.documentation ++ [r] }
  else if t = "other".toList then some { g with other := g.other ++ [r] }
  else if t ∈ protoProps then none
  else some { g with other := g.other ++ [r] }

/-- The `grouped` object assembled by `getRelevantContext`, or `none`
when the loop throws a TypeError. -/
def groupResults {S : Type} (results : List (SearchResult S)) :
    Option (GroupedResults S) :=
  results.foldlM groupStep ⟨[], [], [], []⟩

/-- The claim `C9` as stated is false: a result whose `metadata.type` is
`"toString"` does not land in `other` — `grouped["toString"]` finds the
inherited `Object.prototype.toString`, which is truthy, and calling
`.push` on it throws a TypeError, so `getRelevantContext` produces no
grouping at all. -/
theorem groupResults_throws_on_prototype_key :
    groupResults [⟨['1'], (), none, [("type", MetaVal.str "toString".toList)]⟩] =
      (none : Option (GroupedResults Unit)) := by decide

theorem groupFoldM_spec {S : Type} (results : List (SearchResult S))
    (g : GroupedResults S)
    (h : ∀ r ∈ results, typeLabel r.metadata ∉ protoProps) :
    results.foldlM groupStep g = some
      ⟨g.conversation ++ results.filter
          (fun r => decide (typeLabel r.metadata = "conversation".toList)),
        g.code ++ results.filter (fun r => decide (typeLabel r.metadata = "code".toList)),
        g.documentation ++ results.filter
          (fun r => decide (typeLabel r.metadata = "documentation".toList)),
        g.other ++ results.filter (fun r =>
          decide (typeLabel r.metadata ≠ "conversation".toList ∧
            typeLabel r.metadata ≠ "code".toList ∧
            typeLabel r.metadata ≠ "documentation".toList))⟩ := by
  induction results generalizing g with
  | nil => simp
  | cons r rest ih =>
    have hr : typeLabel r.metadata ∉ protoProps := h r (List.mem_cons_self r rest)
    have hrest : ∀ x ∈ rest, typeLabel x.metadata ∉ protoProps :=
      fun x hx => h x (List.mem_cons_of_mem r hx)
    rw [List.foldlM_cons]
    simp only [groupStep]
    rw [if_neg hr]
    split_ifs with h1 h2 h3 h4 <;>
      (rw [Option.bind_eq_bind', Option.some_bind, ih _ hrest]
       simp_all +decide [List.filter_cons, List.append_assoc, GroupedResults.mk.injEq])

/-- Amended `C9`: when no result's label collides with an
`Object.prototype` property name, the grouping partitions the flat
result list into the four fixed buckets by `metadata.type`, preserving
order; every result whose label is not one of the three named buckets
(including an absent type) lands in `other`.  A colliding label instead
makes the loop throw, see the TypeError theorem. -/
theorem groupResults_partition {S : Type} (results : List (SearchResult S))
    (h : ∀ r ∈ results, typeLabel r.metadata ∉ protoProps) :
    groupResults results = some
      ⟨results.filter (fun r => decide (typeLabel r.metadata = "conversation".toList)),
        results.filter (fun r => decide (typeLabel r.metadata = "code".toList)),
        results.filter (fun r => decide (typeLabel r.metadata = "documentation".toList)),
        results.filter (fun r =>
          decide (typeLabel r.metadata ≠ "conversation".toList ∧
            typeLabel r.metadata ≠ "code".toList ∧
            typeLabel r.metadata ≠ "documentation".toList))⟩ := by
  rw [groupResults, groupFoldM_spec results ⟨[], [], [], []⟩ h]
  simp

/-- Witness for `groupResults_partition` mirroring the spec's instance:
result types `code, code, documentation, weird` group as 2 code, 1
documentation, 1 other. -/
theorem groupResults_partition_witness :
    ((groupResults [⟨['1'], (), none, [("type", .str "code".toList)]⟩,
        ⟨['2'], (), none, [("type", .str "code".toList)]⟩,
        ⟨['3'], (), none, [("type", .str "documentation".toList)]⟩,
        ⟨['4'], (), none, [("type", .str "weird".toList)]⟩]).map
          (fun g => g.code.length) = some 2 ∧
     (groupResults [⟨['1'], (), none, [("type", .str "code".toList)]⟩,
        ⟨['2'], (), none, [("type", .str "code".toList)]⟩,
        ⟨['3'], (), none, [("type", .str "documentation".toList)]⟩,
        ⟨['4'], (), none, [("type", .str "weird".toList)]⟩]).map
          (fun g => g.documentation.length) = some 1 ∧
     (groupResults [⟨['1'], (), none, [("type", .str "code".toList)]⟩,
        ⟨['2'], (), none, [("type", .str "code".toList)]⟩,
        ⟨['3'], (), none, [("type", .str "documentation".toList)]⟩,
        ⟨['4'], (), none, [("type", .str "weird".toList)]⟩]).map
          (fun g => g.other.length) = some 1) := by
  rw [groupResults_partition (S := Unit)
    [⟨['1'], (), none, [("type", .str "code".toList)]⟩,
     ⟨['2'], (), none, [("type", .str "code".toList)]⟩,
     ⟨['3'], (), none, [("type", .str "documentation".toList)]⟩,
     ⟨['4'], (), none, [("type", .str "weird".toList)]⟩] (by decide)]
  decide

/-! ## Search pipeline filter handling (`searchContext`, src/context.js) -/

/-- The query object passed to `index.query`: `{vector, topK, filter,
includeMetadata: true}` where `filter` is `undefined` when the filter
object has no keys. -/
structure QueryRequest (E : Type) : Type where
  vector : E
  topK : Nat
  filter : Option (List (String × MetaVal))
  includeMetadata : Bool
deriving Repr

/-- A raw match returned by `index.query`. -/
structure QueryMatch (S : Type) : Type where
  id : List Char
  score : S
  metadata : List (String × MetaVal)
deriving DecidableEq, Repr

/-- The query request built by `searchContext(query, filter, topK)` once
the query embedding is in hand. -/
def searchContextQuery {E : Type} (queryEmbedding : E)
    (filter : List (String × MetaVal)) (topK : Nat) : QueryRequest E :=
  { vector := queryEmbedding, topK := topK,
    filter := if 0 < filter.length then some filter else none,
    includeMetadata := true }

/-- `searchContext`: issue the query and map raw matches to
`SearchResult`s; `queryFn` stands for the external `index.query`. -/
def searchContext {E S : Type} (queryEmbedding : E)
    (filter : List (String × MetaVal)) (topK : Nat)
    (queryFn : QueryRequest E → List (QueryMatch S)) : List (SearchResult S) :=
  (queryFn (searchContextQuery queryEmbedding filter topK)).map (fun m =>
    { id := m.id, score := m.score, text := objGet m.metadata "text",
      metadata := m.metadata })

/-- `C10`: an empty filter object is turned into an absent (`undefined`)
filter field — an unfiltered search — while a filter with at least one
key is passed through to the index unchanged. -/
theorem searchContext_filter_absent_iff_empty {E : Type} (emb : E)
    (filter : List (String × MetaVal)) (topK : Nat) :
    (filter = [] → (searchContextQuery emb filter topK).filter = none) ∧
    (filter ≠ [] → (searchContextQuery emb filter topK).filter = some filter) := by
  constructor
  · intro h
    subst h
    rfl
  · intro h
    have hlen : 0 < filter.length := List.length_pos.mpr h
    simp only [searchContextQuery, if_pos hlen]

/-- Witness for `searchContext_filter_absent_iff_empty` on the empty
filter and on `{project: "p"}`. -/
theorem searchContext_filter_witness :
    (searchContextQuery (0 : Nat) [] 5).filter = none ∧
    (searchContextQuery (0 : Nat) [("project", .str "p".toList)] 5).filter =
      some [("project", .str "p".toList)] :=
  ⟨(searchContext_filter_absent_iff_empty 0 [] 5).1 rfl,
   (searchContext_filter_absent_iff_empty 0 [("project", .str "p".toList)] 5).2
     (by decide)⟩

end PineconeContext
